import Mathlib

/-!
Verification of core serialization, difficulty, chain-validator, transaction
and p2p packet logic of the Xelis blockchain repository, shallowly embedded
in Lean. Machine integers are modelled as `Nat`, with explicit `% 2 ^ w`
where the source wraps. Byte streams are `List Nat` (each element a byte
value); a `Reader` is the list of remaining bytes and `Reader::size()` is
its length.
-/

namespace Xelis

/-- A byte stream. -/
abbrev Bytes := List Nat

/-- Errors of the binary reader (`ReaderError` in the source): `eof` for
reading past the end, `invalidValue` for an unrecognized tag. -/
inductive ReaderError where
  | eof
  | invalidValue
deriving DecidableEq, Repr

/-- Big-endian encoding of a `u64` (`to_be_bytes`), 8 bytes. -/
def u64ToBytes (n : Nat) : Bytes :=
  [n / 2 ^ 56 % 256, n / 2 ^ 48 % 256, n / 2 ^ 40 % 256, n / 2 ^ 32 % 256,
   n / 2 ^ 24 % 256, n / 2 ^ 16 % 256, n / 2 ^ 8 % 256, n % 256]

/-- Big-endian decoding of a byte list into a natural number
(`read_u64` / `read_u32` assemble bytes this way). -/
def bytesToNatBE (l : Bytes) : Nat :=
  l.foldl (fun acc b => acc * 256 + b) 0

/-- Big-endian encoding of a `u32` (`to_be_bytes`), 4 bytes. -/
def u32ToBytes (n : Nat) : Bytes :=
  [n / 2 ^ 24 % 256, n / 2 ^ 16 % 256, n / 2 ^ 8 % 256, n % 256]

/-- The `Reader::read_u64`: consume 8 bytes, big-endian. -/
def readU64 (r : Bytes) : Except ReaderError (Nat × Bytes) :=
  if 8 ≤ r.length then .ok (bytesToNatBE (r.take 8), r.drop 8) else .error .eof

/-- Modelled from the spec: the `Ciphertext` type of
`xelis_common/src/account/mod.rs` is not included in the sources; per the
spec ("commitments and decrypt handles are 32 bytes each") a compressed
ciphertext serializes as exactly 64 bytes (32-byte commitment followed by
32-byte decrypt handle), and reading one consumes exactly 64 bytes. We
model a ciphertext by its 64-byte serialization. -/
def Ciphertext := { l : Bytes // l.length = 64 }

instance : DecidableEq Ciphertext := fun a b =>
  decidable_of_iff (a.val = b.val) Subtype.ext_iff.symm

/-- The `Ciphertext::write`: emit the 64 serialized bytes. -/
def Ciphertext.write (c : Ciphertext) : Bytes := c.val

/-- The `Ciphertext::read`: consume exactly 64 bytes, `EOF` if fewer remain. -/
def Ciphertext.read (r : Bytes) : Except ReaderError (Ciphertext × Bytes) :=
  if h : 64 ≤ r.length then
    .ok (⟨r.take 64, by rw [List.length_take]; omega⟩, r.drop 64)
  else
    .error .eof

/-- The `VersionedBalance` (`xelis_common/src/account/balance.rs`): the
per-(account, asset) balance version. Field order follows the source. -/
structure VersionedBalance where
  output_balance : Option Ciphertext
  final_balance : Ciphertext
  previous_topoheight : Option Nat
deriving DecidableEq

/-- The `VersionedBalance::write`: final balance ciphertext, then the previous
topoheight (8 bytes) if present, then the output balance ciphertext if
present. -/
def VersionedBalance.write (v : VersionedBalance) : Bytes :=
  v.final_balance.write
  ++ (match v.previous_topoheight with
      | some topo => u64ToBytes topo
      | none => [])
  ++ (match v.output_balance with
      | some output => output.write
      | none => [])

/-- The `VersionedBalance::read`: read the final balance ciphertext, then
dispatch on the number of remaining bytes: 0 means no previous topoheight
and no output balance; 8 means a previous topoheight only; anything else
means a previous topoheight followed by an output balance ciphertext. -/
def VersionedBalance.read (r : Bytes) : Except ReaderError (VersionedBalance × Bytes) :=
  match Ciphertext.read r with
  | .error e => .error e
  | .ok (final_balance, r1) =>
    if r1.length = 0 then
      .ok ({ output_balance := none, final_balance, previous_topoheight := none }, r1)
    else if r1.length = 8 then
      match readU64 r1 with
      | .error e => .error e
      | .ok (topo, r2) =>
        .ok ({ output_balance := none, final_balance, previous_topoheight := some topo }, r2)
    else
      match readU64 r1 with
      | .error e => .error e
      | .ok (topo, r2) =>
        match Ciphertext.read r2 with
        | .error e => .error e
        | .ok (output, r3) =>
          .ok ({ output_balance := some output, final_balance,
                 previous_topoheight := some topo }, r3)

/-- A concrete all-zero ciphertext, used for concrete evaluations. -/
def zeroCiphertext : Ciphertext := ⟨List.replicate 64 0, by simp⟩

/-- A second concrete ciphertext (first byte 1), distinct from
`zeroCiphertext`. -/
def oneCiphertext : Ciphertext := ⟨1 :: List.replicate 63 0, by simp⟩

/-! ## Difficulty controller (`xelis_daemon/src/core/difficulty.rs`)

The source computes with `VarUint`, a wide (256-bit) unsigned integer on
which, per the spec, "overflow must not wrap"; we model it by `Nat`.
`x >> SHIFT` is `x / 2 ^ SHIFT` and `x << SHIFT` is `x * 2 ^ SHIFT`. -/

/-- The `SHIFT` constant of the difficulty module. -/
def SHIFT : Nat := 32

/-- The `LEFT_SHIFT = 1 << SHIFT`. -/
def LEFT_SHIFT : Nat := 2 ^ SHIFT

/-- The `PROCESS_NOISE_COVAR = (1 << SHIFT) / 100 * 5` — note the source
divides by 100 before multiplying by 5. -/
def PROCESS_NOISE_COVAR : Nat := 2 ^ SHIFT / 100 * 5

/-- The `P`, the initial estimate covariance, equal to `LEFT_SHIFT`. -/
def P : Nat := LEFT_SHIFT

/-- Modelled from the spec: `xelis_daemon/src/config.rs` is not among the
sources; `difficulty.rs` imports `BLOCK_TIME_MILLIS` from it. The spec's
key constants give a block time of 15000 ms. -/
def BLOCK_TIME_MILLIS : Nat := 15000

/-- Modelled from the spec: `xelis_daemon/src/config.rs` is not among the
sources; `difficulty.rs` imports `MINIMUM_DIFFICULTY` from it. The spec's
difficulty test vector (§8) requires `MINIMUM_DIFFICULTY / 1000 = 15000`
and `MINIMUM_DIFFICULTY / 2000 = 7500`, as does the in-repo test
`test_kalman_filter`; this fixes the constant as `BLOCK_TIME_MILLIS *
1000 = 15_000_000` (the §6 table's `BLOCK_TIME*10` does not reproduce
either). -/
def MINIMUM_DIFFICULTY : Nat := BLOCK_TIME_MILLIS * 1000

/-- The `kalman_filter`: one step of the unsigned-integer Kalman filter used
as hashrate estimator. Returns `(x_est_new, p_new)`. -/
def kalman_filter (z x_est_prev p_prev : Nat) : Nat × Nat :=
  -- Scale up
  let z := z * LEFT_SHIFT
  let x_est_prev := x_est_prev * LEFT_SHIFT
  -- Prediction step
  let p_pred := x_est_prev * PROCESS_NOISE_COVAR / 2 ^ SHIFT + p_prev
  -- Update step
  let k := p_pred * 2 ^ SHIFT / (p_pred + z)
  -- Ensure positive numbers only
  let x_est_new := if z ≥ x_est_prev then
      x_est_prev + k * (z - x_est_prev) / 2 ^ SHIFT
    else
      x_est_prev - k * (x_est_prev - z) / 2 ^ SHIFT
  let p_new := (LEFT_SHIFT - k) * p_pred / 2 ^ SHIFT
  -- Scale down
  (x_est_new / 2 ^ SHIFT, p_new)

/-- The `calculate_difficulty`: difficulty of the next block from the parent
solve time, previous difficulty and running covariance. -/
def calculate_difficulty (parent_timestamp timestamp previous_difficulty p : Nat) :
    Nat × Nat :=
  let solve_time := timestamp - parent_timestamp
  let z := previous_difficulty / solve_time
  let r := kalman_filter z (previous_difficulty / BLOCK_TIME_MILLIS) p
  let difficulty := r.1 * BLOCK_TIME_MILLIS
  if difficulty < MINIMUM_DIFFICULTY then
    (MINIMUM_DIFFICULTY, P)
  else
    (difficulty, r.2)

/-! ## Chain validator (`xelis_daemon/src/p2p/chain_validator.rs`)

Block hashes are modelled as `Nat`. The validator's `HashMap` of blocks is
modelled as an association list (the map's hashing is irrelevant to the
claims; insertion appends, and a key is never inserted twice because
`insert_block` rejects known hashes first). The surrounding blockchain is
abstracted by the two capabilities `insert_block` consumes: a `has_block`
predicate on the main store and the `verify_proof_of_work` oracle (defined
in `blockchain.rs`, not among the sources), which either fails or returns
the difficulty for the block. -/

/-- Block / transaction identifier, a 32-byte hash in the source. -/
abbrev BHash := Nat

/-- The `TIPS_LIMIT` (`xelis_common/src/config.rs`). -/
def TIPS_LIMIT : Nat := 3

/-- The part of `BlockHeader` the chain validator inspects: its tips, and
the proof-of-work hash `get_pow_hash()` derives from the header (modelled
as a field, i.e. by its value). -/
structure BlockHeaderCV where
  tips : List BHash
  pow_hash : BHash
deriving DecidableEq

/-- The `BlockchainError` variants reachable from `insert_block`. -/
inductive BlockchainError where
  | alreadyInChain
  | invalidTips
  | invalidDifficulty
  | blockNotFound (hash : BHash)
deriving DecidableEq

/-- The `Data` entry held by the validator for one block. -/
structure Data where
  header : BlockHeaderCV
  difficulty : Nat
  cumulative_difficulty : Nat
deriving DecidableEq

/-- The `ChainValidator`: all accepted blocks plus their insertion order. -/
structure ChainValidator where
  blocks : List (BHash × Data)
  order : List BHash
deriving DecidableEq

/-- The `self.blocks.contains_key(h)`. -/
def ChainValidator.containsBlock (cv : ChainValidator) (h : BHash) : Bool :=
  cv.blocks.any (fun e => e.1 == h)

/-- The tip-checking loop of `insert_block`: each tip must be present in
the validator or in the main chain, and must not repeat an earlier tip
(`unique_tips` accumulates the tips seen so far). -/
def checkTips (cv : ChainValidator) (has_block : BHash → Bool) :
    List BHash → List BHash → Except BlockchainError Unit
  | [], _ => .ok ()
  | tip :: rest, unique_tips =>
    if !cv.containsBlock tip && !has_block tip then
      .error .invalidTips
    else if unique_tips.contains tip then
      .error .invalidTips
    else
      checkTips cv has_block rest (tip :: unique_tips)

/-- The `ChainValidator::insert_block`. The mutable receiver is modelled by
returning the (possibly unchanged) validator next to the
`Result<(), BlockchainError>`; `verify_pow cv pow_hash tips` stands for
`blockchain.verify_proof_of_work(self, &pow_hash, &tips)`. -/
def ChainValidator.insert_block (cv : ChainValidator) (has_block : BHash → Bool)
    (verify_pow : ChainValidator → BHash → List BHash → Except BlockchainError Nat)
    (hash : BHash) (header : BlockHeaderCV) :
    ChainValidator × Except BlockchainError Unit :=
  if cv.containsBlock hash then
    (cv, .error .alreadyInChain)
  else if has_block hash then
    (cv, .error .alreadyInChain)
  else
    let tips := header.tips
    let tips_count := tips.length
    if tips_count = 0 ∨ tips_count > TIPS_LIMIT then
      (cv, .error .invalidTips)
    else
      match checkTips cv has_block tips [] with
      | .error e => (cv, .error e)
      | .ok () =>
        match verify_pow cv header.pow_hash tips with
        | .error e => (cv, .error e)
        | .ok difficulty =>
          ({ blocks := cv.blocks ++ [(hash, ⟨header, difficulty, 0⟩)],
             order := cv.order ++ [hash] }, .ok ())

/-- The `ChainValidator::get_data`. -/
def ChainValidator.get_data (cv : ChainValidator) (h : BHash) :
    Except BlockchainError Data :=
  match cv.blocks.find? (fun e => e.1 == h) with
  | some e => .ok e.2
  | none => .error (.blockNotFound h)

/-- The `DifficultyProvider::get_cumulative_difficulty_for_block_hash` for the
validator. -/
def ChainValidator.get_cumulative_difficulty_for_block_hash
    (cv : ChainValidator) (h : BHash) : Except BlockchainError Nat :=
  match cv.get_data h with
  | .ok d => .ok d.cumulative_difficulty
  | .error e => .error e

/-! ## Transactions (`src/transaction.rs`, `src/crypto/key.rs`)

Public keys are 32 bytes (`KEY_LENGTH`), signatures 64 bytes
(`SIGNATURE_LENGTH`). Rust strings and `usize` lengths are serialized as
their raw UTF-8 bytes and 8 big-endian bytes respectively; the
`HashMap<String, String>` of smart-contract params is modelled as an
association list in its iteration order. -/

/-- A 32-byte value (hashes, public keys). -/
def Bytes32 := { l : Bytes // l.length = 32 }

instance : DecidableEq Bytes32 := fun a b =>
  decidable_of_iff (a.val = b.val) Subtype.ext_iff.symm

/-- Ed25519 public key, 32 bytes (`PublicKey::to_bytes`). -/
abbrev PublicKey := Bytes32

/-- Ed25519 signature, 64 bytes; its byte content is irrelevant here. -/
def Signature := { l : Bytes // l.length = 64 }

instance : DecidableEq Signature := fun a b =>
  decidable_of_iff (a.val = b.val) Subtype.ext_iff.symm

/-- The `Tx`: one output of a normal transfer (`to` is a Lean keyword, hence
`to_key` for the source's `to` field). -/
structure Tx where
  amount : Nat
  to_key : PublicKey
deriving DecidableEq

/-- The `TransactionData`: the transaction payload variants. -/
inductive TransactionData where
  | registration
  | normal (txs : List Tx)
  | smartContract (contract : Bytes) (amount : Nat) (params : List (Bytes × Bytes))
  | burn (amount : Nat)
  | coinbase (amount : Nat)
  | uploadSmartContract (code : Bytes)
deriving DecidableEq

/-- The `TransactionData::to_bytes` (`impl Hashable for TransactionData`):
a one-byte variant tag followed by the variant's fields; list lengths are
`usize` (8 bytes big-endian). -/
def TransactionData.to_bytes : TransactionData → Bytes
  | .burn amount => 0 :: u64ToBytes amount
  | .normal txs =>
    1 :: u64ToBytes txs.length
      ++ (txs.map (fun tx => u64ToBytes tx.amount ++ tx.to_key.val)).flatten
  | .registration => [2]
  | .smartContract contract amount params =>
    3 :: contract ++ u64ToBytes amount ++ u64ToBytes params.length
      ++ (params.map (fun kv => kv.1 ++ kv.2)).flatten
  | .coinbase amount => 4 :: u64ToBytes amount
  | .uploadSmartContract code => 5 :: code

/-- The `Transaction`: field order follows the source. -/
structure Transaction where
  nonce : Nat
  data : TransactionData
  sender : PublicKey
  fee : Nat
  signature : Option Signature
deriving DecidableEq

/-- The `Transaction::to_bytes` (`impl Hashable for Transaction`): nonce,
data, sender and fee; the signature is not written (the source's
`//TODO add signature`). -/
def Transaction.to_bytes (t : Transaction) : Bytes :=
  u64ToBytes t.nonce ++ t.data.to_bytes ++ t.sender.val ++ u64ToBytes t.fee

/-! ## P2P packets (`src/p2p/packet/mod.rs`, `src/p2p/packet/ping.rs`) -/

/-- Modelled from the spec: `src/p2p/packet/handshake.rs` is not among the
sources; a handshake is abstracted by its serialized payload bytes. -/
def Handshake := Bytes

/-- Modelled from the spec: `src/core/block.rs` is not among the sources;
a complete block is abstracted by its serialized payload bytes. -/
def CompleteBlock := Bytes

/-- Modelled from the spec: `src/p2p/packet/request_chain.rs` is not among
the sources; a chain request is abstracted by its serialized payload
bytes. -/
def RequestChain := Bytes

/-- The `Ping` packet payload. -/
structure Ping where
  block_top_hash : Bytes32
  block_height : Nat
deriving DecidableEq

/-- The `Ping::to_bytes`: the 32-byte top hash then the height as 8 bytes. -/
def Ping.to_bytes (p : Ping) : Bytes :=
  p.block_top_hash.val ++ u64ToBytes p.block_height

/-- The `Ping::from_bytes`: `read_hash` (32 bytes) then `read_u64`. -/
def Ping.from_bytes (r : Bytes) : Except ReaderError (Ping × Bytes) :=
  if h : 32 ≤ r.length then
    match readU64 (r.drop 32) with
    | .error e => .error e
    | .ok (height, rest) =>
      .ok ({ block_top_hash := ⟨r.take 32, by rw [List.length_take]; omega⟩,
             block_height := height }, rest)
  else
    .error .eof

/-- The `HANDSHAKE_ID`. -/
def HANDSHAKE_ID : Nat := 0
/-- The `TX_ID`. -/
def TX_ID : Nat := 1
/-- The `BLOCK_ID`. -/
def BLOCK_ID : Nat := 2
/-- The `REQUEST_CHAIN_ID`. -/
def REQUEST_CHAIN_ID : Nat := 3
/-- The `PING_ID`. -/
def PING_ID : Nat := 4

/-- The `PacketOut`: outgoing packets. -/
inductive PacketOut where
  | handshake (h : Handshake)
  | transaction (tx : Transaction)
  | block (b : CompleteBlock)
  | requestChain (rc : RequestChain)
  | ping (p : Ping)

/-- The `PacketOut::to_bytes`: pick `(id, packet)` from the variant, then emit
`(packet.len() as u32 + 1).to_be_bytes()`, the tag byte and the payload.
The `u32` cast and addition wrap modulo `2 ^ 32`. -/
def PacketOut.to_bytes (p : PacketOut) : Bytes :=
  let pair : Nat × Bytes := match p with
    | .handshake h => (HANDSHAKE_ID, h)
    | .transaction tx => (TX_ID, tx.to_bytes)
    | .block b => (BLOCK_ID, b)
    | .requestChain rc => (REQUEST_CHAIN_ID, rc)
    | .ping pg => (PING_ID, pg.to_bytes)
  let packet_len := (pair.2.length % 2 ^ 32 + 1) % 2 ^ 32
  u32ToBytes packet_len ++ pair.1 :: pair.2

/-- Spec-side description of the tag byte of each outgoing packet, for
comparison with `PacketOut.to_bytes`. -/
def packetTag : PacketOut → Nat
  | .handshake _ => 0
  | .transaction _ => 1
  | .block _ => 2
  | .requestChain _ => 3
  | .ping _ => 4

/-- Spec-side description of the payload of each outgoing packet: the
serialization of the inner value. -/
def packetPayload : PacketOut → Bytes
  | .handshake h => h
  | .transaction tx => tx.to_bytes
  | .block b => b
  | .requestChain rc => rc
  | .ping p => p.to_bytes

/-- A parser consuming a byte stream. -/
def ByteParser (α : Type) := Bytes → Except ReaderError (α × Bytes)

/-- The `PacketIn`: incoming packets. -/
inductive PacketIn where
  | handshake (h : Handshake)
  | transaction (tx : Transaction)
  | block (b : CompleteBlock)
  | requestChain (rc : RequestChain)
  | ping (p : Ping)

/-- The `PacketIn::from_bytes`: read the tag byte, dispatch to the payload
parser of that tag, and fail with `InvalidValue` on any other tag. The
payload parsers for handshake, transaction, block and chain request are
parameters (their sources are not included); ping uses
`Ping.from_bytes`. -/
def PacketIn.from_bytes (readHandshake : ByteParser Handshake)
    (readTransaction : ByteParser Transaction)
    (readBlock : ByteParser CompleteBlock)
    (readRequestChain : ByteParser RequestChain)
    (r : Bytes) : Except ReaderError (PacketIn × Bytes) :=
  match r with
  | [] => .error .eof
  | id :: rest =>
    if id = HANDSHAKE_ID then
      match readHandshake rest with
      | .ok (h, r1) => .ok (.handshake h, r1)
      | .error e => .error e
    else if id = TX_ID then
      match readTransaction rest with
      | .ok (tx, r1) => .ok (.transaction tx, r1)
      | .error e => .error e
    else if id = BLOCK_ID then
      match readBlock rest with
      | .ok (b, r1) => .ok (.block b, r1)
      | .error e => .error e
    else if id = REQUEST_CHAIN_ID then
      match readRequestChain rest with
      | .ok (rc, r1) => .ok (.requestChain rc, r1)
      | .error e => .error e
    else if id = PING_ID then
      match Ping.from_bytes rest with
      | .ok (p, r1) => .ok (.ping p, r1)
      | .error e => .error e
    else
      .error .invalidValue

/-! ## Peer fail counter (`src/p2p/peer.rs`)

`fail_count` is an `AtomicU8`; `increment_fail_count` performs
`fetch_add(1)`, which wraps modulo `2 ^ 8`. We model the stored 8-bit cell
by a `Nat` below 256 and the increment by its wrapping successor. -/

/-- The `Peer::increment_fail_count` acting on the stored `u8` value. -/
def increment_fail_count (fail_count : Nat) : Nat :=
  (fail_count + 1) % 2 ^ 8

/-! ## Concrete values for witnesses -/

/-- A balance version with an output balance but no previous topoheight. -/
def badBalance : VersionedBalance :=
  { output_balance := some oneCiphertext, final_balance := zeroCiphertext,
    previous_topoheight := none }

/-- A balance version with both optional fields present. -/
def goodBalance : VersionedBalance :=
  { output_balance := some oneCiphertext, final_balance := zeroCiphertext,
    previous_topoheight := some 5 }

/-- A parser that always fails, usable for the abstract payload parsers. -/
def nullParser (α : Type) : ByteParser α := fun _ => .error .eof

/-- An empty chain validator. -/
def cvEmpty : ChainValidator := { blocks := [], order := [] }

/-- A main chain containing exactly the block with hash 10. -/
def hasBlockEx : BHash → Bool := fun h => h == 10

/-- A proof-of-work oracle that always succeeds with difficulty 7. -/
def powOkEx : ChainValidator → BHash → List BHash → Except BlockchainError Nat :=
  fun _ _ _ => .ok 7

/-- A header whose single tip is the main-chain block 10. -/
def headerEx : BlockHeaderCV := { tips := [10], pow_hash := 99 }

/-! ## Helper lemmas -/

/-- Big-endian `u64` decode inverts encode below `2 ^ 64`. -/
theorem bytesToNatBE_u64ToBytes (n : Nat) (h : n < 2 ^ 64) :
    bytesToNatBE (u64ToBytes n) = n := by
  simp only [bytesToNatBE, u64ToBytes, List.foldl]
  omega

/-- Big-endian `u32` decode inverts encode below `2 ^ 32`. -/
theorem bytesToNatBE_u32ToBytes (n : Nat) (h : n < 2 ^ 32) :
    bytesToNatBE (u32ToBytes n) = n := by
  simp only [bytesToNatBE, u32ToBytes, List.foldl]
  omega

/-- The `u64ToBytes` always produces 8 bytes. -/
theorem u64ToBytes_length (n : Nat) : (u64ToBytes n).length = 8 := rfl

/-- Reading a ciphertext from its own bytes followed by anything yields the
ciphertext and the remainder. -/
theorem Ciphertext.read_append (c : Ciphertext) (rest : Bytes) :
    Ciphertext.read (c.val ++ rest) = .ok (c, rest) := by
  have hc : c.val.length = 64 := c.property
  unfold Ciphertext.read
  rw [dif_pos (by simp [hc])]
  have htake : (c.val ++ rest).take 64 = c.val := List.take_left' hc
  have hdrop : (c.val ++ rest).drop 64 = rest := List.drop_left' hc
  simp only [hdrop]
  congr 1
  exact congrArg (fun l => (l, rest)) (Subtype.ext htake)

/-- Reading a `u64` from its own bytes followed by anything yields the
value and the remainder. -/
theorem readU64_append (t : Nat) (h : t < 2 ^ 64) (rest : Bytes) :
    readU64 (u64ToBytes t ++ rest) = .ok (t, rest) := by
  unfold readU64
  have hl : (u64ToBytes t).length = 8 := rfl
  rw [if_pos (by simp [hl])]
  have htake : (u64ToBytes t ++ rest).take 8 = u64ToBytes t := List.take_left' hl
  have hdrop : (u64ToBytes t ++ rest).drop 8 = rest := List.drop_left' hl
  rw [htake, hdrop, bytesToNatBE_u64ToBytes t h]

/-- Reading a ciphertext from exactly its own bytes. -/
theorem Ciphertext.read_self (c : Ciphertext) :
    Ciphertext.read c.val = .ok (c, []) := by
  have h := Ciphertext.read_append c []
  rwa [List.append_nil] at h

/-- Reading a `u64` from exactly its own bytes. -/
theorem readU64_self (t : Nat) (h : t < 2 ^ 64) :
    readU64 (u64ToBytes t) = .ok (t, []) := by
  have h2 := readU64_append t h []
  rwa [List.append_nil] at h2

/-! ## C1: VersionedBalance round-trip -/

/-- C1 counterexample: for a `VersionedBalance` whose `output_balance` is
present but whose `previous_topoheight` is absent, decoding the encoding
does not return the value — `read` misinterprets the first 8 bytes of the
output ciphertext as a previous topoheight and then hits end-of-input
reading the output ciphertext, so the round trip fails with `EOF`. -/
theorem C1_roundtrip_counterexample :
    VersionedBalance.read (VersionedBalance.write badBalance)
      = .error .eof ∧ badBalance.output_balance.isSome = true := by
  constructor
  · have hlen : oneCiphertext.val.length = 64 := oneCiphertext.property
    simp only [badBalance, VersionedBalance.write, Ciphertext.write,
      List.append_nil, List.nil_append]
    unfold VersionedBalance.read
    rw [Ciphertext.read_append zeroCiphertext oneCiphertext.val]
    simp only [hlen]
    rw [if_neg (by omega), if_neg (by omega)]
    unfold readU64
    rw [if_pos (by rw [hlen]; omega)]
    simp [Ciphertext.read, List.length_drop, hlen]
  · rfl

/-- C1 (amended): for every `VersionedBalance` whose `previous_topoheight`
fits in a `u64` and which does not combine a present `output_balance` with
an absent `previous_topoheight`, decoding the bytes produced by encoding
yields the value back, field for field, with no bytes left over. -/
theorem C1_versioned_balance_roundtrip (v : VersionedBalance)
    (hshape : v.output_balance = none ∨ v.previous_topoheight ≠ none)
    (htopo : ∀ t, v.previous_topoheight = some t → t < 2 ^ 64) :
    VersionedBalance.read (VersionedBalance.write v) = .ok (v, []) := by
  obtain ⟨out, fin, prev⟩ := v
  cases prev with
  | none =>
    cases out with
    | none =>
      simp [VersionedBalance.write, VersionedBalance.read, Ciphertext.write,
        Ciphertext.read_self]
    | some o =>
      rcases hshape with h | h
      · exact absurd h (by simp)
      · exact absurd rfl h
  | some t =>
    have ht : t < 2 ^ 64 := htopo t rfl
    cases out with
    | none =>
      simp [VersionedBalance.write, VersionedBalance.read, Ciphertext.write,
        Ciphertext.read_append, u64ToBytes_length, readU64_self t ht]
    | some o =>
      have hov : o.val.length = 64 := o.property
      simp [VersionedBalance.write, VersionedBalance.read, Ciphertext.write,
        List.append_assoc, Ciphertext.read_append, u64ToBytes_length,
        readU64_append t ht, Ciphertext.read_self, hov]

/-- C1 witness: the amended round trip at a concrete value with both
optional fields present. -/
theorem C1_roundtrip_witness :
    (goodBalance.output_balance = none ∨ goodBalance.previous_topoheight ≠ none) ∧
    VersionedBalance.read (VersionedBalance.write goodBalance) = .ok (goodBalance, []) := by
  refine ⟨Or.inr (by simp [goodBalance]), ?_⟩
  exact C1_versioned_balance_roundtrip goodBalance (Or.inr (by simp [goodBalance]))
    (by intro t ht; simp [goodBalance] at ht; omega)

/-! ## C2: Kalman filter test vector -/

/-- C2: the Kalman filter on `z = MINIMUM_DIFFICULTY / 1000` with previous
estimate 1 and covariance `P` returns exactly `(2, 4509399998)`, and fed
again with `z = MINIMUM_DIFFICULTY / 2000` and that returned estimate and
covariance it returns exactly `(3, 4938139585)`. -/
theorem C2_kalman_filter_test_vector :
    kalman_filter (MINIMUM_DIFFICULTY / 1000) 1 P = (2, 4509399998) ∧
    kalman_filter (MINIMUM_DIFFICULTY / 2000)
        (kalman_filter (MINIMUM_DIFFICULTY / 1000) 1 P).1
        (kalman_filter (MINIMUM_DIFFICULTY / 1000) 1 P).2
      = (3, 4938139585) := by
  constructor
  · decide
  · decide

/-! ## C3: difficulty floor and covariance reset -/

/-- C3: whenever `parent_timestamp < timestamp`, the difficulty returned
by `calculate_difficulty` is at least `MINIMUM_DIFFICULTY`; and whenever
the computed `x_est_new * BLOCK_TIME_MILLIS` falls below
`MINIMUM_DIFFICULTY`, the result is exactly `(MINIMUM_DIFFICULTY, P)` —
the covariance is reset to the initial constant `P` instead of the fresh
`p_new`. -/
theorem C3_calculate_difficulty_floor
    (parent_timestamp timestamp previous_difficulty p : Nat)
    (h : parent_timestamp < timestamp) :
    MINIMUM_DIFFICULTY
        ≤ (calculate_difficulty parent_timestamp timestamp previous_difficulty p).1 ∧
    ((kalman_filter (previous_difficulty / (timestamp - parent_timestamp))
          (previous_difficulty / BLOCK_TIME_MILLIS) p).1 * BLOCK_TIME_MILLIS
        < MINIMUM_DIFFICULTY →
      calculate_difficulty parent_timestamp timestamp previous_difficulty p
        = (MINIMUM_DIFFICULTY, P)) := by
  unfold calculate_difficulty
  set r := kalman_filter (previous_difficulty / (timestamp - parent_timestamp))
    (previous_difficulty / BLOCK_TIME_MILLIS) p with hr
  by_cases hlt : r.1 * BLOCK_TIME_MILLIS < MINIMUM_DIFFICULTY
  · rw [if_pos hlt]
    exact ⟨le_refl _, fun _ => rfl⟩
  · rw [if_neg hlt]
    exact ⟨Nat.le_of_not_lt hlt, fun hcontra => absurd hcontra hlt⟩

/-- C3 witness: a concrete input (zero previous difficulty, so the floor
branch fires) where the returned difficulty meets the minimum. -/
theorem C3_floor_witness :
    (0 : Nat) < 15000 ∧
    MINIMUM_DIFFICULTY ≤ (calculate_difficulty 0 15000 0 P).1 := by
  exact ⟨by decide, (C3_calculate_difficulty_floor 0 15000 0 P (by decide)).1⟩

/-! ## C8: the process-noise covariance constant -/

/-- C8 counterexample: `PROCESS_NOISE_COVAR` is not `LEFT_SHIFT * 5 / 100`
(which is 214748364): the source divides by 100 before multiplying by 5,
which floors differently. -/
theorem C8_process_noise_covar_counterexample :
    PROCESS_NOISE_COVAR ≠ 2 ^ 32 * 5 / 100 := by decide

/-- C8 (amended): `PROCESS_NOISE_COVAR = (1 << SHIFT) / 100 * 5
= 214748360` in exact integer arithmetic, 4 less than
`(2 ^ 32 * 5) / 100 = 214748364`. -/
theorem C8_process_noise_covar_value :
    PROCESS_NOISE_COVAR = 214748360 ∧ 2 ^ 32 * 5 / 100 = 214748364 := by
  exact ⟨by decide, by decide⟩

/-! ## C10: the peer fail counter is an 8-bit wrapping counter -/

/-- Iterating the fail-count increment adds modulo 256. -/
theorem increment_fail_count_iterate (k : Nat) :
    ∀ n : Nat, n < 256 → increment_fail_count^[k] n = (n + k) % 256 := by
  induction k with
  | zero => intro n h; simp [Nat.mod_eq_of_lt h]
  | succ k ih =>
    intro n h
    rw [Function.iterate_succ_apply]
    have hstep : increment_fail_count n = (n + 1) % 256 := rfl
    rw [hstep, ih ((n + 1) % 256) (Nat.mod_lt _ (by omega))]
    omega

/-- C10: the per-peer fail counter is 8-bit — incrementing adds 1 modulo
`2 ^ 8`, so 256 consecutive increments return any starting value below 256
to itself, a counter at 255 wraps to 0, and the stored value (what
`get_fail_count` loads) never exceeds 255. -/
theorem C10_fail_count_u8 (n : Nat) (h : n < 256) :
    increment_fail_count^[256] n = n ∧
    increment_fail_count 255 = 0 ∧
    increment_fail_count n ≤ 255 := by
  refine ⟨?_, by decide, ?_⟩
  · rw [increment_fail_count_iterate 256 n h]; omega
  · have : increment_fail_count n = (n + 1) % 256 := rfl
    rw [this]; omega

/-- C10 witness: 256 increments return a counter at 7 to 7. -/
theorem C10_fail_count_witness :
    (7 : Nat) < 256 ∧ increment_fail_count^[256] 7 = 7 := by
  exact ⟨by decide, (C10_fail_count_u8 7 (by decide)).1⟩

/-! ## C5: transaction bytes and hash ignore the signature -/

/-- C5: `Transaction::to_bytes` is independent of the signature field: two
transactions agreeing on nonce, data, sender and fee but with different
signatures (including signed versus unsigned) serialize to identical
bytes, and therefore any hash computed over those bytes (`Hashable::hash`)
coincides. -/
theorem C5_to_bytes_ignores_signature (nonce : Nat) (data : TransactionData)
    (sender : PublicKey) (fee : Nat) (s1 s2 : Option Signature)
    (hashFn : Bytes → Bytes32) :
    Transaction.to_bytes
        { nonce, data, sender, fee, signature := s1 }
      = Transaction.to_bytes
        { nonce, data, sender, fee, signature := s2 } ∧
    hashFn (Transaction.to_bytes { nonce, data, sender, fee, signature := s1 })
      = hashFn (Transaction.to_bytes { nonce, data, sender, fee, signature := s2 }) := by
  exact ⟨rfl, rfl⟩

/-! ## C6: outgoing packet frame format -/

/-- C6: for every outgoing packet whose payload length plus one fits in a
`u32`, `PacketOut::to_bytes` is the big-endian `u32` payload length plus
one (for the tag byte), then the tag byte, then the payload serialization
of the inner value; decoding the first four bytes recovers that length,
and the tags are `HANDSHAKE=0, TX=1, BLOCK=2, REQUEST_CHAIN=3, PING=4`. -/
theorem C6_packet_out_frame (p : PacketOut)
    (h : (packetPayload p).length + 1 < 2 ^ 32) :
    PacketOut.to_bytes p
        = u32ToBytes ((packetPayload p).length + 1) ++ packetTag p :: packetPayload p ∧
    bytesToNatBE ((PacketOut.to_bytes p).take 4) = (packetPayload p).length + 1 ∧
    (∀ hs, packetTag (PacketOut.handshake hs) = 0) ∧
    (∀ tx, packetTag (PacketOut.transaction tx) = 1) ∧
    (∀ b, packetTag (PacketOut.block b) = 2) ∧
    (∀ rc, packetTag (PacketOut.requestChain rc) = 3) ∧
    (∀ pg, packetTag (PacketOut.ping pg) = 4) := by
  have hframe : PacketOut.to_bytes p
      = u32ToBytes ((packetPayload p).length + 1) ++ packetTag p :: packetPayload p := by
    cases p <;>
      simp only [packetPayload] at h <;>
      simp only [PacketOut.to_bytes, packetPayload, packetTag, HANDSHAKE_ID, TX_ID,
        BLOCK_ID, REQUEST_CHAIN_ID, PING_ID] <;>
      rw [Nat.mod_eq_of_lt (by omega), Nat.mod_eq_of_lt (by omega)]
  refine ⟨hframe, ?_, fun _ => rfl, fun _ => rfl, fun _ => rfl, fun _ => rfl, fun _ => rfl⟩
  rw [hframe]
  have h4 : (u32ToBytes ((packetPayload p).length + 1)).length = 4 := rfl
  rw [List.take_append_of_le_length (by rw [h4])]
  rw [List.take_of_length_le (by rw [h4])]
  exact bytesToNatBE_u32ToBytes _ h

/-- C6 witness: the frame of a concrete chain-request packet. -/
theorem C6_packet_out_frame_witness :
    (packetPayload (PacketOut.requestChain [9, 9, 9])).length + 1 < 2 ^ 32 ∧
    PacketOut.to_bytes (PacketOut.requestChain [9, 9, 9])
      = [0, 0, 0, 4, 3, 9, 9, 9] := by
  refine ⟨by decide, ?_⟩
  have h := (C6_packet_out_frame (PacketOut.requestChain [9, 9, 9]) (by decide)).1
  rw [h]
  rfl

/-! ## C9: incoming packets with an unknown tag are rejected -/

/-- C9: for every input whose first byte is none of the five defined tags
0–4, `PacketIn::from_bytes` returns the invalid-value error, for every
choice of the payload parsers; no packet value is ever produced. -/
theorem C9_packet_in_invalid_tag (readHandshake : ByteParser Handshake)
    (readTransaction : ByteParser Transaction)
    (readBlock : ByteParser CompleteBlock)
    (readRequestChain : ByteParser RequestChain)
    (id : Nat) (rest : Bytes) (h : 4 < id) :
    PacketIn.from_bytes readHandshake readTransaction readBlock readRequestChain
      (id :: rest) = .error .invalidValue := by
  have h0 : id ≠ 0 := by omega
  have h1 : id ≠ 1 := by omega
  have h2 : id ≠ 2 := by omega
  have h3 : id ≠ 3 := by omega
  have h4 : id ≠ 4 := by omega
  simp [PacketIn.from_bytes, HANDSHAKE_ID, TX_ID, BLOCK_ID, REQUEST_CHAIN_ID,
    PING_ID, h0, h1, h2, h3, h4]

/-- C9 witness: tag byte 7 is rejected (with always-failing payload
parsers, which are never consulted on this path). -/
theorem C9_packet_in_invalid_tag_witness :
    (4 : Nat) < 7 ∧
    PacketIn.from_bytes (nullParser Handshake) (nullParser Transaction)
      (nullParser CompleteBlock) (nullParser RequestChain) [7, 1, 2]
      = .error .invalidValue := by
  exact ⟨by decide,
    C9_packet_in_invalid_tag (nullParser Handshake) (nullParser Transaction)
      (nullParser CompleteBlock) (nullParser RequestChain) 7 [1, 2] (by decide)⟩

/-! ## C4/C7 helpers: characterizing the tip check and block insertion -/

/-- The tip-checking loop succeeds exactly when every tip is resolvable
(in the validator or the main chain), the tips are pairwise distinct, and
none of them was already seen. -/
theorem checkTips_ok_iff (cv : ChainValidator) (hb : BHash → Bool) :
    ∀ (tips seen : List BHash),
      checkTips cv hb tips seen = .ok () ↔
        (∀ t ∈ tips, cv.containsBlock t = true ∨ hb t = true) ∧
        tips.Nodup ∧ ∀ t ∈ tips, t ∉ seen := by
  intro tips
  induction tips with
  | nil => intro seen; simp [checkTips]
  | cons tip rest ih =>
    intro seen
    unfold checkTips
    by_cases hres : (!cv.containsBlock tip && !hb tip) = true
    · rw [if_pos hres]
      simp only [Bool.and_eq_true, Bool.not_eq_true'] at hres
      constructor
      · intro habs; exact absurd habs (by simp)
      · rintro ⟨hall, -, -⟩
        rcases hall tip (by simp) with h | h
        · rw [hres.1] at h; exact absurd h (by simp)
        · rw [hres.2] at h; exact absurd h (by simp)
    · have hres2 : cv.containsBlock tip = true ∨ hb tip = true := by
        rcases Bool.eq_false_or_eq_true (cv.containsBlock tip) with h | h
        · exact Or.inl h
        · rcases Bool.eq_false_or_eq_true (hb tip) with h2 | h2
          · exact Or.inr h2
          · exact absurd (by rw [h, h2]; rfl) hres
      rw [if_neg hres]
      by_cases hseen : seen.contains tip = true
      · rw [if_pos hseen]
        rw [List.elem_iff] at hseen
        constructor
        · intro habs; exact absurd habs (by simp)
        · rintro ⟨-, -, hnot⟩
          exact absurd hseen (hnot tip (by simp))
      · rw [if_neg hseen]
        rw [List.elem_iff] at hseen
        rw [ih (tip :: seen)]
        constructor
        · rintro ⟨h1, h2, h3⟩
          refine ⟨?_, ?_, ?_⟩
          · intro t ht
            rcases List.mem_cons.mp ht with rfl | ht2
            · exact hres2
            · exact h1 t ht2
          · rw [List.nodup_cons]
            refine ⟨fun hmem => ?_, h2⟩
            exact h3 tip hmem (List.mem_cons_self tip seen)
          · intro t ht
            rcases List.mem_cons.mp ht with rfl | ht2
            · exact hseen
            · exact fun hmem => h3 t ht2 (List.mem_cons_of_mem tip hmem)
        · rintro ⟨h1, h2, h3⟩
          refine ⟨fun t ht => h1 t (List.mem_cons_of_mem tip ht),
            (List.nodup_cons.mp h2).2, ?_⟩
          intro t ht hmem
          rcases List.mem_cons.mp hmem with rfl | hmem2
          · exact (List.nodup_cons.mp h2).1 ht
          · exact h3 t (List.mem_cons_of_mem tip ht) hmem2

/-- The tip-checking loop either succeeds or fails with `InvalidTips`. -/
theorem checkTips_ok_or_invalidTips (cv : ChainValidator) (hb : BHash → Bool) :
    ∀ (tips seen : List BHash),
      checkTips cv hb tips seen = .ok () ∨
      checkTips cv hb tips seen = .error .invalidTips := by
  intro tips
  induction tips with
  | nil => intro seen; exact Or.inl rfl
  | cons tip rest ih =>
    intro seen
    unfold checkTips
    by_cases h1 : (!cv.containsBlock tip && !hb tip) = true
    · rw [if_pos h1]; exact Or.inr rfl
    · rw [if_neg h1]
      by_cases h2 : seen.contains tip = true
      · rw [if_pos h2]; exact Or.inr rfl
      · rw [if_neg h2]; exact ih (tip :: seen)

/-- Full case characterization of `ChainValidator::insert_block`: either
the hash is already known and the call fails with `AlreadyInChain` leaving
the state alone, or the tip checks fail with `InvalidTips` leaving the
state alone, or the tip checks pass and the call mirrors the
proof-of-work oracle — failing with its error and leaving the state
alone, or succeeding and appending the block (with cumulative difficulty
0) to the blocks map and the insertion order. -/
theorem insert_block_cases (cv : ChainValidator) (hb : BHash → Bool)
    (pc : ChainValidator → BHash → List BHash → Except BlockchainError Nat)
    (hash : BHash) (header : BlockHeaderCV) :
    ((cv.containsBlock hash = true ∨ hb hash = true) ∧
      cv.insert_block hb pc hash header = (cv, .error .alreadyInChain)) ∨
    (cv.containsBlock hash = false ∧ hb hash = false ∧
      (header.tips.length = 0 ∨ header.tips.length > TIPS_LIMIT ∨
       (∃ t ∈ header.tips, cv.containsBlock t = false ∧ hb t = false) ∨
       ¬ header.tips.Nodup) ∧
      cv.insert_block hb pc hash header = (cv, .error .invalidTips)) ∨
    (cv.containsBlock hash = false ∧ hb hash = false ∧
      (∀ t ∈ header.tips, cv.containsBlock t = true ∨ hb t = true) ∧
      header.tips.Nodup ∧
      header.tips.length ≠ 0 ∧ header.tips.length ≤ TIPS_LIMIT ∧
      ((∃ e, pc cv header.pow_hash header.tips = .error e ∧
          cv.insert_block hb pc hash header = (cv, .error e)) ∨
       (∃ d, pc cv header.pow_hash header.tips = .ok d ∧
          cv.insert_block hb pc hash header =
            ({ blocks := cv.blocks ++ [(hash, ⟨header, d, 0⟩)],
               order := cv.order ++ [hash] }, .ok ())))) := by
  by_cases hc1 : cv.containsBlock hash = true
  · refine Or.inl ⟨Or.inl hc1, ?_⟩
    simp only [ChainValidator.insert_block]
    rw [if_pos hc1]
  · have hc1f : cv.containsBlock hash = false := by
      revert hc1; cases cv.containsBlock hash <;> simp
    by_cases hc2 : hb hash = true
    · refine Or.inl ⟨Or.inr hc2, ?_⟩
      simp only [ChainValidator.insert_block]
      rw [if_neg hc1, if_pos hc2]
    · have hc2f : hb hash = false := by
        revert hc2; cases hb hash <;> simp
      by_cases hlen : header.tips.length = 0 ∨ header.tips.length > TIPS_LIMIT
      · refine Or.inr (Or.inl ⟨hc1f, hc2f, by tauto, ?_⟩)
        simp only [ChainValidator.insert_block]
        rw [if_neg hc1, if_neg hc2, if_pos hlen]
      · have hlen2 : header.tips.length ≠ 0 ∧ header.tips.length ≤ TIPS_LIMIT := by
          constructor
          · intro h0; exact hlen (Or.inl h0)
          · by_contra hgt; exact hlen (Or.inr (by omega))
        rcases checkTips_ok_or_invalidTips cv hb header.tips [] with hok | herr
        · have hchar := (checkTips_ok_iff cv hb header.tips []).mp hok
          rcases hpc : pc cv header.pow_hash header.tips with e | d
          · refine Or.inr (Or.inr ⟨hc1f, hc2f, hchar.1, hchar.2.1,
              hlen2.1, hlen2.2, Or.inl ⟨e, rfl, ?_⟩⟩)
            simp only [ChainValidator.insert_block]
            rw [if_neg hc1, if_neg hc2, if_neg hlen, hok, hpc]
          · refine Or.inr (Or.inr ⟨hc1f, hc2f, hchar.1, hchar.2.1,
              hlen2.1, hlen2.2, Or.inr ⟨d, rfl, ?_⟩⟩)
            simp only [ChainValidator.insert_block]
            rw [if_neg hc1, if_neg hc2, if_neg hlen, hok, hpc]
        · have hnchar : ¬((∀ t ∈ header.tips, cv.containsBlock t = true ∨ hb t = true) ∧
              header.tips.Nodup ∧ ∀ t ∈ header.tips, t ∉ ([] : List BHash)) := by
            intro hch
            rw [← checkTips_ok_iff cv hb header.tips []] at hch
            rw [hch] at herr
            exact absurd herr (by simp)
          refine Or.inr (Or.inl ⟨hc1f, hc2f, ?_, ?_⟩)
          · rcases Classical.em (∀ t ∈ header.tips,
                cv.containsBlock t = true ∨ hb t = true) with hall | hnall
            · rcases Classical.em header.tips.Nodup with hnd | hnd
              · exact absurd ⟨hall, hnd, fun t _ h => (List.not_mem_nil t h)⟩ hnchar
              · exact Or.inr (Or.inr (Or.inr hnd))
            · refine Or.inr (Or.inr (Or.inl ?_))
              by_contra hcon
              apply hnall
              intro t ht
              rcases Bool.eq_false_or_eq_true (cv.containsBlock t) with h | h
              · exact Or.inl h
              · rcases Bool.eq_false_or_eq_true (hb t) with h2 | h2
                · exact Or.inr h2
                · exact absurd ⟨t, ht, h, h2⟩ hcon
          · simp only [ChainValidator.insert_block]
            rw [if_neg hc1, if_neg hc2, if_neg hlen, herr]

/-! ## C4: error conditions and state discipline of insert_block -/

/-- C4: `ChainValidator::insert_block` errors exactly when the hash is
already in the validator or the main chain, the tip count is 0 or exceeds
`TIPS_LIMIT`, some tip is known to neither the validator nor the main
store, a tip repeats within the header, or proof-of-work verification
fails; already-known hashes yield `AlreadyInChain` and bad tips
`InvalidTips`. In every error case the blocks map and insertion-order
list are unchanged; on success the block is appended to both. -/
theorem C4_insert_block_spec (cv : ChainValidator) (has_block : BHash → Bool)
    (verify_pow : ChainValidator → BHash → List BHash → Except BlockchainError Nat)
    (hash : BHash) (header : BlockHeaderCV) :
    ((cv.insert_block has_block verify_pow hash header).2 ≠ .ok () ↔
      (cv.containsBlock hash = true ∨ has_block hash = true ∨
       header.tips.length = 0 ∨ header.tips.length > TIPS_LIMIT ∨
       (∃ t ∈ header.tips, cv.containsBlock t = false ∧ has_block t = false) ∨
       ¬ header.tips.Nodup ∨
       ∃ e, verify_pow cv header.pow_hash header.tips = .error e)) ∧
    ((cv.insert_block has_block verify_pow hash header).2 ≠ .ok () →
      (cv.insert_block has_block verify_pow hash header).1 = cv) ∧
    ((cv.insert_block has_block verify_pow hash header).2 = .ok () →
      ∃ d, verify_pow cv header.pow_hash header.tips = .ok d ∧
        (cv.insert_block has_block verify_pow hash header).1.blocks
          = cv.blocks ++ [(hash, ⟨header, d, 0⟩)] ∧
        (cv.insert_block has_block verify_pow hash header).1.order
          = cv.order ++ [hash]) ∧
    ((cv.containsBlock hash = true ∨ has_block hash = true) →
      (cv.insert_block has_block verify_pow hash header).2
        = .error .alreadyInChain) ∧
    (cv.containsBlock hash = false → has_block hash = false →
      (header.tips.length = 0 ∨ header.tips.length > TIPS_LIMIT ∨
       (∃ t ∈ header.tips, cv.containsBlock t = false ∧ has_block t = false) ∨
       ¬ header.tips.Nodup) →
      (cv.insert_block has_block verify_pow hash header).2
        = .error .invalidTips) := by
  rcases insert_block_cases cv has_block verify_pow hash header with
    ⟨hknown, heq⟩ | ⟨hc1, hc2, hbad, heq⟩ |
    ⟨hc1, hc2, hall, hnodup, hne, hle, hpow⟩
  · refine ⟨?_, fun _ => by rw [heq], fun hok => absurd (heq ▸ hok) (by simp),
      fun _ => by rw [heq], fun hf1 hf2 _ => ?_⟩
    · rw [heq]
      refine iff_of_true (by simp) (by tauto)
    · rcases hknown with h | h
      · rw [hf1] at h; exact absurd h (by simp)
      · rw [hf2] at h; exact absurd h (by simp)
  · refine ⟨?_, fun _ => by rw [heq], fun hok => absurd (heq ▸ hok) (by simp),
      ?_, fun _ _ _ => by rw [heq]⟩
    · rw [heq]
      refine iff_of_true (by simp) ?_
      rcases hbad with h | h | h | h
      · exact .inr (.inr (.inl h))
      · exact .inr (.inr (.inr (.inl h)))
      · exact .inr (.inr (.inr (.inr (.inl h))))
      · exact .inr (.inr (.inr (.inr (.inr (.inl h)))))
    · intro hknown
      rcases hknown with h | h
      · rw [hc1] at h; exact absurd h (by simp)
      · rw [hc2] at h; exact absurd h (by simp)
  · have hbadfalse : ¬(header.tips.length = 0 ∨ header.tips.length > TIPS_LIMIT ∨
        (∃ t ∈ header.tips, cv.containsBlock t = false ∧ has_block t = false) ∨
        ¬ header.tips.Nodup) := by
      rintro (h | h | ⟨t, ht, hf1, hf2⟩ | h)
      · exact hne h
      · omega
      · rcases hall t ht with hh | hh
        · rw [hf1] at hh; exact absurd hh (by simp)
        · rw [hf2] at hh; exact absurd hh (by simp)
      · exact h hnodup
    have hknownfalse : ¬(cv.containsBlock hash = true ∨ has_block hash = true) := by
      rintro (h | h)
      · rw [hc1] at h; exact absurd h (by simp)
      · rw [hc2] at h; exact absurd h (by simp)
    rcases hpow with ⟨e, hpc, heq⟩ | ⟨d, hpc, heq⟩
    · refine ⟨?_, fun _ => by rw [heq], fun hok => absurd (heq ▸ hok) (by simp),
        fun hk => absurd hk hknownfalse, fun _ _ hb2 => absurd hb2 hbadfalse⟩
      rw [heq]
      have hex : ∃ e2, verify_pow cv header.pow_hash header.tips = .error e2 := ⟨e, hpc⟩
      refine iff_of_true (by simp) (by tauto)
    · refine ⟨?_, ?_, fun _ => ⟨d, hpc, by rw [heq], by rw [heq]⟩,
        fun hk => absurd hk hknownfalse, fun _ _ hb2 => absurd hb2 hbadfalse⟩
      · rw [heq]
        refine iff_of_false (by simp) ?_
        rintro (h | h | hrest)
        · rw [hc1] at h; exact absurd h (by simp)
        · rw [hc2] at h; exact absurd h (by simp)
        · rcases hrest with h | h | h | h | ⟨e, he⟩
          · exact hne h
          · omega
          · exact hbadfalse (Or.inr (Or.inr (Or.inl h)))
          · exact h hnodup
          · rw [hpc] at he; exact absurd he (by simp)
      · intro hne2
        rw [heq] at hne2
        exact absurd rfl hne2

/-- C4 witness: inserting a fresh block whose single tip is in the main
chain succeeds, and the success clause of the specification applies. -/
theorem C4_insert_block_witness :
    (cvEmpty.insert_block hasBlockEx powOkEx 5 headerEx).2 = .ok () ∧
    ∃ d, powOkEx cvEmpty headerEx.pow_hash headerEx.tips = .ok d ∧
      (cvEmpty.insert_block hasBlockEx powOkEx 5 headerEx).1.blocks
        = cvEmpty.blocks ++ [(5, ⟨headerEx, d, 0⟩)] ∧
      (cvEmpty.insert_block hasBlockEx powOkEx 5 headerEx).1.order
        = cvEmpty.order ++ [5] := by
  have hok : (cvEmpty.insert_block hasBlockEx powOkEx 5 headerEx).2 = .ok () := by
    rfl
  exact ⟨hok,
    (C4_insert_block_spec cvEmpty hasBlockEx powOkEx 5 headerEx).2.2.1 hok⟩

/-! ## C7: validator cumulative difficulty is a zero placeholder -/

/-- C7: every block successfully inserted into the `ChainValidator` is
stored with cumulative difficulty 0, so
`get_cumulative_difficulty_for_block_hash` answers 0 for its hash no
matter what its tips were or what difficulty the proof-of-work check
computed. -/
theorem C7_validator_cumulative_difficulty_zero (cv : ChainValidator)
    (hb : BHash → Bool)
    (pc : ChainValidator → BHash → List BHash → Except BlockchainError Nat)
    (hash : BHash) (header : BlockHeaderCV)
    (hok : (cv.insert_block hb pc hash header).2 = .ok ()) :
    ((cv.insert_block hb pc hash header).1).get_cumulative_difficulty_for_block_hash
      hash = .ok 0 := by
  rcases insert_block_cases cv hb pc hash header with
    ⟨-, heq⟩ | ⟨-, -, -, heq⟩ | ⟨hc1, -, -, -, -, -, hpow⟩
  · rw [heq] at hok; exact absurd hok (by simp)
  · rw [heq] at hok; exact absurd hok (by simp)
  · rcases hpow with ⟨e, -, heq⟩ | ⟨d, -, heq⟩
    · rw [heq] at hok; exact absurd hok (by simp)
    · rw [heq]
      unfold ChainValidator.get_cumulative_difficulty_for_block_hash
        ChainValidator.get_data
      have hnone : cv.blocks.find? (fun e => e.1 == hash) = none := by
        rw [List.find?_eq_none]
        intro x hx hpx
        have hany : cv.blocks.any (fun e => e.1 == hash) = true :=
          List.any_eq_true.mpr ⟨x, hx, hpx⟩
        rw [ChainValidator.containsBlock] at hc1
        rw [hc1] at hany
        exact absurd hany (by simp)
      have hfind : ((cv.blocks ++ [(hash, (⟨header, d, 0⟩ : Data))]).find?
          (fun e => e.1 == hash)) = some (hash, ⟨header, d, 0⟩) := by
        rw [List.find?_append, hnone]
        simp [List.find?]
      rw [hfind]

/-- C7 witness: after the concrete successful insertion, the cumulative
difficulty reported for the new hash is 0 even though the proof-of-work
oracle returned difficulty 7. -/
theorem C7_cumulative_difficulty_witness :
    (cvEmpty.insert_block hasBlockEx powOkEx 5 headerEx).2 = .ok () ∧
    ((cvEmpty.insert_block hasBlockEx powOkEx 5 headerEx).1).get_cumulative_difficulty_for_block_hash
      5 = .ok 0 := by
  have hok : (cvEmpty.insert_block hasBlockEx powOkEx 5 headerEx).2 = .ok () := by
    rfl
  exact ⟨hok,
    C7_validator_cumulative_difficulty_zero cvEmpty hasBlockEx powOkEx 5 headerEx hok⟩

end Xelis
